import Mathlib

/-!
# Verification of `reduce-tree.py`

A shallow embedding of the `reduce-tree` utility. The tool has two phases:

* `prepare_tree`: walks a source tree and, for every non-symlink file whose
  name ends in `.c` or `.h`, sets its modification time to the current
  instant and its access time to the current instant minus 48 hours
  (`os.utime(path, (a_time, m_time))` with `m_time = time.time()` sampled
  once before the walk and `a_time = m_time - 48 * 3600`).
* `collect_tree`: walks a source tree and, for every non-symlink file whose
  name ends in `.c` or `.h` and whose access time is strictly greater than
  its modification time, forwards it to `parent_copy`, which recreates the
  file's parent-directory chain (relative to the source root) under the
  destination root and copies the file there with metadata preserved
  (`shutil.copy2`).
* `main` validates the command-line arguments, dispatches to exactly one of
  the two phases, and wraps operational failures with phase context; the
  `__main__` handler prints any raised failure as `Error: <message>` and
  then lets the script end normally.

Modelling decisions:

* Paths are lists of components (`List String`); `pathStr` joins them with
  `/` for error messages, mirroring the `"%s/%s"` path construction in the
  script. `os.path.abspath` is modelled as the identity: the model's paths
  are already canonical.
* A file in the source tree (`SrcFile`) carries its path relative to the
  walk root (parent components plus name), a symlink flag and its stat data
  (content, permission bits, access and modification times). `os.walk`
  order is the list order of the tree.
* The destination tree (`DstFS`) records the set of directory chains that
  exist under the destination root (`madeDirs`, relative paths) and an
  association list from relative path to the copied file's data (`files`).
* The one fallible primitive the claims need is `shutil.copy2`; a
  `CopyEnv` says, per source path, whether the copy raises and with which
  message (`str(e)` of the cause). `noFail` is the environment in which
  every copy succeeds. Timestamps are integers (seconds).
* Exceptions are modelled by returning the state reached so far together with
  `some message`: work already done before a failure is kept, as in the
  script (no rollback).
-/

set_option autoImplicit false

namespace ReduceTree

/-- A filesystem path as a list of components. -/
abbrev Path := List String

/-- Join path components with `/`, as the script's `"%s/%s"` formatting does. -/
def pathStr (p : Path) : String := String.intercalate "/" p

/-- Stat data copied by `shutil.copy2`: file contents, permission bits,
access time and modification time. -/
structure FileData where
  content : Nat
  perms : Nat
  atime : Int
  mtime : Int
deriving DecidableEq, Repr, Inhabited

/-- One file found by `os.walk` under a tree root: its parent-directory
chain relative to the root, its name, whether `os.path.islink` holds, and
its stat data. -/
structure SrcFile where
  dirs : Path
  name : String
  isLink : Bool
  content : Nat
  perms : Nat
  atime : Int
  mtime : Int
deriving DecidableEq, Repr, Inhabited

/-- The stat data `shutil.copy2` would transfer for this file. -/
def SrcFile.stat (f : SrcFile) : FileData :=
  ⟨f.content, f.perms, f.atime, f.mtime⟩

/-- The file's path relative to the walk root. -/
def SrcFile.relKey (f : SrcFile) : Path := f.dirs ++ [f.name]

/-- Python's `str.endswith(suffix)`: the suffix's characters end the
string's characters. -/
def strEndsWith (s suf : String) : Bool := suf.data.isSuffixOf s.data

/-- The test `f.endswith((".c", ".h"))` from the script: a tuple argument matches
when the string ends with any of its members. -/
def endsWithCH (s : String) : Bool := strEndsWith s ".c" || strEndsWith s ".h"

/-- The destination tree: directory chains existing under the destination
root, and the files copied there, keyed by path relative to the
destination root. -/
structure DstFS where
  madeDirs : List Path
  files : List (Path × FileData)
deriving DecidableEq, Repr, Inhabited

/-- A destination root with no subdirectories and no files yet. -/
def emptyDst : DstFS := ⟨[], []⟩

/-- Look a relative path up in the destination's file table. -/
def lookupFile : List (Path × FileData) → Path → Option FileData
  | [], _ => none
  | (k, v) :: rest, p => if k = p then some v else lookupFile rest p

/-- Write a file into the destination's file table, overwriting any entry
at the same relative path (what copying onto an existing file does). -/
def putFile : List (Path × FileData) → Path → FileData → List (Path × FileData)
  | [], p, v => [(p, v)]
  | (k, w) :: rest, p, v =>
    if k = p then (p, v) :: rest else (k, w) :: putFile rest p v

/-- The relative paths present in a destination file table. -/
def fileKeys (fs : List (Path × FileData)) : List Path := fs.map Prod.fst

/-- All nonempty initial segments of a directory chain: the directories
`os.makedirs` has to ensure exist. -/
def nonemptyPrefixes : Path → List Path
  | [] => []
  | a :: rest => [a] :: (nonemptyPrefixes rest).map (a :: ·)

/-- Create one directory chain if it does not exist yet. -/
def addDir (ds : List Path) (p : Path) : List Path :=
  if p ∈ ds then ds else ds ++ [p]

/-- Model of `os.makedirs(dst, 0755)`: create the chain `parents` under the
destination root together with every missing intermediate directory. -/
def mkDirs (ds : List Path) (parents : Path) : List Path :=
  (nonemptyPrefixes parents).foldl addDir ds

/-- Model of `os.path.relpath(src, root)` for the case the script exercises: if
`root` is a prefix of `src` the remainder is returned; otherwise (the
result would need `..` components) the model returns `none`, a case
`collect_tree` never produces. -/
def relpath : Path → Path → Option Path
  | p, [] => some p
  | [], _ :: _ => none
  | p :: ps, r :: rs => if p = r then relpath ps rs else none

/-- Which source paths `shutil.copy2` fails on, and the message of the
raised exception. All other modelled operations are total. -/
structure CopyEnv where
  copyErr : Path → Option String

/-- The environment in which every copy succeeds. -/
def noFail : CopyEnv := ⟨fun _ => none⟩

/-- The function `parent_copy(src, dst, root)` from the script. Computes
`os.path.relpath(src, root)`, splits off the file name, creates the parent
chain under the destination root when it is nonempty and does not already
exist, and copies the file (data preserved) into that directory. Any
exception raised in the body is caught and re-raised as
`Could not copy <src>: <cause>`; the state reached before the failure is
kept. The destination root directory itself is represented by the `DstFS`
state and is never tested for existence. -/
def parent_copy (env : CopyEnv) (src root : Path) (data : FileData)
    (d : DstFS) : DstFS × Option String :=
  match relpath src root with
  | none =>
    (d, some ("Could not copy " ++ pathStr src ++ ": ValueError"))
  | some rel =>
    match rel.getLast? with
    | none =>
      -- `src = root`: `os.path.split(".")` keeps `"."` as the name and
      -- `shutil.copy2` then raises on the directory. Unreachable from
      -- `collect_tree`, which always appends a file name.
      (d, some ("Could not copy " ++ pathStr src ++ ": IsADirectoryError"))
    | some nm =>
      let parents := rel.dropLast
      let d1 : DstFS :=
        if parents ≠ [] ∧ parents ∉ d.madeDirs then
          { d with madeDirs := mkDirs d.madeDirs parents }
        else d
      match env.copyErr src with
      | some cause =>
        (d1, some ("Could not copy " ++ pathStr src ++ ": " ++ cause))
      | none =>
        ({ d1 with files := putFile d1.files (parents ++ [nm]) data }, none)

/-- One iteration of the inner loop of `collect_tree`: skip files whose
name does not end in `.c`/`.h`, skip symlinks, copy files whose access
time is strictly greater than their modification time. A failure from an
earlier iteration aborts the remaining work. -/
def collectStep (env : CopyEnv) (root : Path) :
    DstFS × Option String → SrcFile → DstFS × Option String
  | (d, some e), _ => (d, some e)
  | (d, none), f =>
    if endsWithCH f.name then
      if f.isLink then (d, none)
      else if f.atime > f.mtime then
        parent_copy env (root ++ f.relKey) root f.stat d
      else (d, none)
    else (d, none)

/-- The function `collect_tree(src, dst)` from the script: walk the tree under the
(already canonical) source root and copy every used `.c`/`.h` file into
the destination; the inner `try` re-raises any exception unchanged. -/
def collect_tree (env : CopyEnv) (root : Path) (tree : List SrcFile)
    (d : DstFS) : DstFS × Option String :=
  tree.foldl (collectStep env root) (d, none)

/-- The fixed 48-hour offset, in seconds. -/
def HOURS48 : Int := 48 * 3600

/-- The per-file action of `prepare_tree`: for a non-symlink file whose
name ends in `.c`/`.h`, `os.utime(path, (a_time, m_time))` with
`m_time = now` and `a_time = now - 48 * 3600`; all other entries are left
untouched. -/
def prepareFile (now : Int) (f : SrcFile) : SrcFile :=
  if endsWithCH f.name then
    if f.isLink then f
    else { f with atime := now - HOURS48, mtime := now }
  else f

/-- The function `prepare_tree(src)` from the script: `m_time = time.time()` is sampled
once before the walk begins, so the same pair of timestamps is applied to
every matched file. -/
def prepare_tree (now : Int) (tree : List SrcFile) : List SrcFile :=
  tree.map (prepareFile now)

/-- The parsed command-line arguments: the two mode flags and the two
optional path arguments. -/
structure Args where
  prepareMode : Bool
  collectMode : Bool
  src : Option Path
  dst : Option Path

/-- The ambient filesystem as `main` sees it: the current time, which
paths exist, the source tree found under a path, and the destination
state under a path. -/
structure World where
  now : Int
  pathExists : Path → Bool
  treeAt : Path → List SrcFile
  dstAt : Path → DstFS

/-- Replace the source tree under a path (the effect of `prepare_tree`). -/
def World.setTree (w : World) (p : Path) (t : List SrcFile) : World :=
  { w with treeAt := fun q => if q = p then t else w.treeAt q }

/-- Replace the destination state under a path (the effect of
`collect_tree`). -/
def World.setDst (w : World) (p : Path) (d : DstFS) : World :=
  { w with dstAt := fun q => if q = p then d else w.dstAt q }

/-- The function `main()` from the script: validate the flags, require `--src` (and
`--dst` for collect), require that the source path exists, then run
exactly one phase. Operational failures are wrapped with the phase name;
the world reached before a failure is kept (no rollback). The model's
`prepare_tree` is total, so the `Could not prepare:` wrapper never fires
here. -/
def main (env : CopyEnv) (w : World) (args : Args) : World × Option String :=
  if (args.prepareMode && args.collectMode)
      || (!args.prepareMode && !args.collectMode) then
    (w, some "You must use either --collect or --prepare")
  else if args.prepareMode && args.src.isNone then
    (w, some "You must use --src in conjunction with --prepare")
  else if args.collectMode && (args.src.isNone || args.dst.isNone) then
    (w, some "You must use --src and --dst in conjunction with --collect")
  else
    match args.src with
    | none =>
      -- Unreachable: the checks above guarantee `--src` was supplied in
      -- both modes; `os.path.exists(None)` would raise a `TypeError`.
      (w, some "coercing to Unicode: need string or buffer, NoneType found")
    | some s =>
      if !(w.pathExists s) then
        (w, some ("Directory " ++ pathStr s ++ " does not exist"))
      else if args.prepareMode then
        (w.setTree s (prepare_tree w.now (w.treeAt s)), none)
      else
        match args.dst with
        | none =>
          -- Unreachable: the collect validation required `--dst`.
          (w, some "coercing to Unicode: need string or buffer, NoneType found")
        | some dp =>
          match collect_tree env s (w.treeAt s) (w.dstAt dp) with
          | (d1, none) => (w.setDst dp d1, none)
          | (d1, some e) => (w.setDst dp d1, some ("Could not collect: " ++ e))

/-- The `__main__` block: run `main`; if it raises, print
`Error: <message>` to standard output. The exception is swallowed by the
handler and the script then falls off the end, so the process exits with
a success status either way; the `Bool` in the result is that success
status (`true` = exit status 0). The `List String` is the lines printed
to standard output. -/
def topLevel (env : CopyEnv) (w : World) (args : Args) :
    World × List String × Bool :=
  match main env w args with
  | (w1, none) => (w1, [], true)
  | (w1, some e) => (w1, ["Error: " ++ e], true)

/-- The predicate of `collect_tree`, as one boolean: name ends in `.c` or
`.h`, the file is not a symlink, and its access time is strictly greater
than its modification time. -/
def usedFile (f : SrcFile) : Bool :=
  endsWithCH f.name && !f.isLink && decide (f.atime > f.mtime)

/-- The directory-creation part of `parent_copy`, isolated: ensure the
file's parent chain exists under the destination root. -/
def ensureDirs (f : SrcFile) (d : DstFS) : DstFS :=
  if f.dirs ≠ [] ∧ f.dirs ∉ d.madeDirs then
    { d with madeDirs := mkDirs d.madeDirs f.dirs }
  else d

/-- The effect of one successful `parent_copy` call on the destination. -/
def copyOne (f : SrcFile) (d : DstFS) : DstFS :=
  { ensureDirs f d with files := putFile (ensureDirs f d).files f.relKey f.stat }

/-- The collector in the environment where no copy fails, as a total
function on the destination state. -/
def runPure (tree : List SrcFile) (d : DstFS) : DstFS :=
  tree.foldl (fun acc f => if usedFile f then copyOne f acc else acc) d

/-- The set of existing directory chains is closed under taking nonempty
initial segments (true of any real directory tree, and preserved by
`os.makedirs`). -/
def dirsClosed (ds : List Path) : Prop :=
  ∀ p ∈ ds, ∀ q ∈ nonemptyPrefixes p, q ∈ ds

/- Concrete sample data used by the witness theorems. -/

/-- A sample source root. -/
def sampleRoot : Path := ["home", "src"]

/-- A sample destination root. -/
def sampleDstPath : Path := ["home", "out"]

/-- A used C file two directories below the root. -/
def cMain : SrcFile := ⟨["a", "b"], "main.c", false, 7, 420, 100, 50⟩

/-- A used C file sitting directly at the tree root. -/
def cRootFile : SrcFile := ⟨[], "top.c", false, 8, 420, 100, 50⟩

/-- An unused header file (access time not greater than modification
time). -/
def cUnused : SrcFile := ⟨["a"], "unused.h", false, 9, 420, 40, 50⟩

/-- A file whose name matches no recognized suffix. -/
def cReadme : SrcFile := ⟨[], "README.md", false, 10, 420, 100, 50⟩

/-- A symbolic link with a matching name. -/
def cLinked : SrcFile := ⟨["a"], "link.c", true, 11, 420, 100, 50⟩

/-- A sample world: every path exists, the tree holds a used and an unused
file, destinations start empty. -/
def sampleWorld : World :=
  ⟨1000, fun _ => true, fun _ => [cMain, cUnused], fun _ => emptyDst⟩

/-- A world in which no path exists. -/
def deadWorld : World := ⟨1000, fun _ => false, fun _ => [], fun _ => emptyDst⟩

/-- Arguments with both mode flags set. -/
def argsBothFlags : Args := ⟨true, true, some sampleRoot, some sampleDstPath⟩

/-- Well-formed collect-mode arguments. -/
def argsCollect : Args := ⟨false, true, some sampleRoot, some sampleDstPath⟩

/-- An environment in which copying the sample file `cMain` fails. -/
def failEnv : CopyEnv :=
  ⟨fun p => if p = sampleRoot ++ cMain.relKey then some "Permission denied"
    else none⟩

/-! ## Supporting lemmas -/

theorem lookupFile_putFile_self (fs : List (Path × FileData)) (k : Path)
    (v : FileData) : lookupFile (putFile fs k v) k = some v := by
  induction fs with
  | nil => simp [putFile, lookupFile]
  | cons hd rest ih =>
    obtain ⟨k1, v1⟩ := hd
    by_cases hk : k1 = k
    · simp [putFile, hk, lookupFile]
    · simp [putFile, hk, lookupFile, ih]

theorem lookupFile_putFile_ne (fs : List (Path × FileData)) (k p : Path)
    (v : FileData) (h : p ≠ k) :
    lookupFile (putFile fs k v) p = lookupFile fs p := by
  have hk2 : k ≠ p := Ne.symm h
  induction fs with
  | nil => simp [putFile, lookupFile, hk2]
  | cons hd rest ih =>
    obtain ⟨k1, v1⟩ := hd
    by_cases hk : k1 = k
    · subst hk
      simp [putFile, lookupFile, hk2]
    · simp [putFile, hk, lookupFile, ih]

theorem putFile_eq_of_lookup (fs : List (Path × FileData)) (k : Path)
    (v : FileData) (h : lookupFile fs k = some v) : putFile fs k v = fs := by
  induction fs with
  | nil => simp [lookupFile] at h
  | cons hd rest ih =>
    obtain ⟨k1, v1⟩ := hd
    by_cases hk : k1 = k
    · subst hk
      simp [lookupFile] at h
      simp [putFile, h]
    · simp [lookupFile, hk] at h
      simp [putFile, hk, ih h]

theorem fileKeys_cons (k : Path) (v : FileData)
    (rest : List (Path × FileData)) :
    fileKeys ((k, v) :: rest) = k :: fileKeys rest := rfl

theorem mem_fileKeys_putFile (fs : List (Path × FileData)) (k p : Path)
    (v : FileData) :
    p ∈ fileKeys (putFile fs k v) ↔ p = k ∨ p ∈ fileKeys fs := by
  induction fs with
  | nil => simp [putFile, fileKeys]
  | cons hd rest ih =>
    obtain ⟨k1, v1⟩ := hd
    by_cases hk : k1 = k
    · subst hk
      rw [show putFile ((k1, v1) :: rest) k1 v = (k1, v) :: rest from by
        simp [putFile]]
      simp only [fileKeys_cons, List.mem_cons]
      tauto
    · rw [show putFile ((k1, v1) :: rest) k v = (k1, v1) :: putFile rest k v from by
        simp [putFile, hk]]
      simp only [fileKeys_cons, List.mem_cons, ih]
      tauto

theorem mem_fileKeys_iff_lookup (fs : List (Path × FileData)) (p : Path) :
    p ∈ fileKeys fs ↔ ∃ v, lookupFile fs p = some v := by
  induction fs with
  | nil => simp [fileKeys, lookupFile]
  | cons hd rest ih =>
    obtain ⟨k1, v1⟩ := hd
    rw [fileKeys_cons]
    by_cases hk : k1 = p
    · subst hk
      constructor
      · intro _
        refine ⟨v1, ?_⟩
        simp [lookupFile]
      · intro _
        exact List.mem_cons_self _ _
    · have hk2 : p ≠ k1 := Ne.symm hk
      simp only [lookupFile, if_neg hk, List.mem_cons]
      rw [ih]
      constructor
      · rintro (rfl | h)
        · exact absurd rfl hk2
        · exact h
      · exact Or.inr

theorem relpath_append (root p : Path) : relpath (root ++ p) root = some p := by
  induction root with
  | nil => cases p <;> rfl
  | cons r rs ih => simpa [relpath] using ih

theorem mem_addDir (ds : List Path) (p q : Path) :
    q ∈ addDir ds p ↔ q ∈ ds ∨ q = p := by
  by_cases h : p ∈ ds
  · simp only [addDir, if_pos h]
    constructor
    · exact Or.inl
    · rintro (hq | rfl)
      · exact hq
      · exact h
  · simp [addDir, if_neg h]

theorem mem_foldl_addDir (l : List Path) (ds : List Path) (q : Path) :
    q ∈ l.foldl addDir ds ↔ q ∈ ds ∨ q ∈ l := by
  induction l generalizing ds with
  | nil => simp
  | cons a rest ih => simp [List.foldl_cons, ih, mem_addDir]; tauto

theorem mem_mkDirs (ds : List Path) (parents q : Path) :
    q ∈ mkDirs ds parents ↔ q ∈ ds ∨ q ∈ nonemptyPrefixes parents :=
  mem_foldl_addDir _ _ _

theorem self_mem_nonemptyPrefixes (p : Path) (h : p ≠ []) :
    p ∈ nonemptyPrefixes p := by
  induction p with
  | nil => exact absurd rfl h
  | cons a rest ih =>
    cases hr : rest with
    | nil => simp [nonemptyPrefixes]
    | cons b tl =>
      rw [← hr]
      have : rest ∈ nonemptyPrefixes rest := ih (by simp [hr])
      simp only [nonemptyPrefixes, List.mem_cons]
      exact Or.inr (List.mem_map.mpr ⟨rest, this, rfl⟩)

theorem nonemptyPrefixes_trans (p q r : Path)
    (hq : q ∈ nonemptyPrefixes p) (hr : r ∈ nonemptyPrefixes q) :
    r ∈ nonemptyPrefixes p := by
  induction p generalizing q r with
  | nil => simp [nonemptyPrefixes] at hq
  | cons a rest ih =>
    simp only [nonemptyPrefixes, List.mem_cons, List.mem_map] at hq
    rcases hq with rfl | ⟨q1, hq1, rfl⟩
    · simp only [nonemptyPrefixes] at hr
      simp only [List.map_nil] at hr
      simp only [List.mem_singleton] at hr
      subst hr
      simp [nonemptyPrefixes]
    · simp only [nonemptyPrefixes, List.mem_cons, List.mem_map] at hr
      rcases hr with rfl | ⟨r1, hr1, rfl⟩
      · simp [nonemptyPrefixes]
      · simp only [nonemptyPrefixes, List.mem_cons, List.mem_map]
        exact Or.inr ⟨r1, ih q1 r1 hq1 hr1, rfl⟩

theorem relKey_getLast (f : SrcFile) : f.relKey.getLast? = some f.name :=
  List.getLast?_concat _

theorem relKey_dropLast (f : SrcFile) : f.relKey.dropLast = f.dirs :=
  List.dropLast_concat

theorem ensureDirs_files (f : SrcFile) (d : DstFS) :
    (ensureDirs f d).files = d.files := by
  unfold ensureDirs
  split <;> rfl

theorem copyOne_files (f : SrcFile) (d : DstFS) :
    (copyOne f d).files = putFile d.files f.relKey f.stat := by
  rw [copyOne, ensureDirs_files]

theorem parent_copy_ok (env : CopyEnv) (root : Path) (f : SrcFile) (d : DstFS)
    (h : env.copyErr (root ++ f.relKey) = none) :
    parent_copy env (root ++ f.relKey) root f.stat d = (copyOne f d, none) := by
  unfold parent_copy
  rw [relpath_append]
  dsimp only
  rw [relKey_getLast]
  dsimp only
  rw [relKey_dropLast, h]
  dsimp only
  rfl

theorem parent_copy_fail (env : CopyEnv) (root : Path) (f : SrcFile)
    (d : DstFS) (cause : String)
    (h : env.copyErr (root ++ f.relKey) = some cause) :
    parent_copy env (root ++ f.relKey) root f.stat d =
      (ensureDirs f d,
       some ("Could not copy " ++ pathStr (root ++ f.relKey) ++ ": " ++ cause)) := by
  unfold parent_copy
  rw [relpath_append]
  dsimp only
  rw [relKey_getLast]
  dsimp only
  rw [relKey_dropLast, h]
  dsimp only
  rfl

theorem collectStep_ok (env : CopyEnv) (root : Path) (d : DstFS) (f : SrcFile)
    (h : usedFile f = true → env.copyErr (root ++ f.relKey) = none) :
    collectStep env root (d, none) f =
      (if usedFile f then copyOne f d else d, none) := by
  cases hE : endsWithCH f.name with
  | false => simp [collectStep, usedFile, hE]
  | true =>
    cases hL : f.isLink with
    | true => simp [collectStep, usedFile, hE, hL]
    | false =>
      by_cases hT : f.atime > f.mtime
      · have hu : usedFile f = true := by simp [usedFile, hE, hL, hT]
        simp [collectStep, hE, hL, hT, hu, parent_copy_ok env root f d (h hu)]
      · simp [collectStep, usedFile, hE, hL, hT]

theorem collect_absorb (env : CopyEnv) (root : Path) (tree : List SrcFile)
    (d : DstFS) (e : String) :
    List.foldl (collectStep env root) (d, some e) tree = (d, some e) := by
  induction tree with
  | nil => rfl
  | cons f rest ih =>
    rw [List.foldl_cons]
    exact ih

theorem collect_bridge (env : CopyEnv) (root : Path) (tree : List SrcFile)
    (d : DstFS)
    (h : ∀ f ∈ tree, usedFile f = true → env.copyErr (root ++ f.relKey) = none) :
    collect_tree env root tree d = (runPure tree d, none) := by
  induction tree generalizing d with
  | nil => rfl
  | cons f rest ih =>
    have hstep := collectStep_ok env root d f (h f (List.mem_cons_self f rest))
    have hrest : ∀ g ∈ rest, usedFile g = true →
        env.copyErr (root ++ g.relKey) = none :=
      fun g hg => h g (List.mem_cons_of_mem f hg)
    calc collect_tree env root (f :: rest) d
        = List.foldl (collectStep env root)
            (collectStep env root (d, none) f) rest := rfl
      _ = List.foldl (collectStep env root)
            (if usedFile f then copyOne f d else d, none) rest := by rw [hstep]
      _ = (runPure rest (if usedFile f then copyOne f d else d), none) :=
            ih _ hrest
      _ = (runPure (f :: rest) d, none) := rfl

theorem runPure_cons (f : SrcFile) (rest : List SrcFile) (d : DstFS) :
    runPure (f :: rest) d =
      runPure rest (if usedFile f then copyOne f d else d) := rfl

theorem mem_fileKeys_copyOne (f : SrcFile) (d : DstFS) (p : Path) :
    p ∈ fileKeys (copyOne f d).files ↔
      p = f.relKey ∨ p ∈ fileKeys d.files := by
  rw [copyOne_files]
  exact mem_fileKeys_putFile _ _ _ _

theorem lookupFile_copyOne_self (f : SrcFile) (d : DstFS) :
    lookupFile (copyOne f d).files f.relKey = some f.stat := by
  rw [copyOne_files]
  exact lookupFile_putFile_self _ _ _

theorem lookupFile_copyOne_ne (f : SrcFile) (d : DstFS) (p : Path)
    (h : p ≠ f.relKey) :
    lookupFile (copyOne f d).files p = lookupFile d.files p := by
  rw [copyOne_files]
  exact lookupFile_putFile_ne _ _ _ _ h

theorem mem_madeDirs_ensureDirs (f : SrcFile) (d : DstFS) (q : Path)
    (h : q ∈ d.madeDirs) : q ∈ (ensureDirs f d).madeDirs := by
  unfold ensureDirs
  split
  · exact (mem_mkDirs _ _ _).mpr (Or.inl h)
  · exact h

theorem dirs_mem_ensureDirs (f : SrcFile) (d : DstFS) (h : f.dirs ≠ []) :
    f.dirs ∈ (ensureDirs f d).madeDirs := by
  unfold ensureDirs
  split
  · exact (mem_mkDirs _ _ _).mpr (Or.inr (self_mem_nonemptyPrefixes _ h))
  · next hc =>
    push_neg at hc
    exact hc h

theorem copyOne_madeDirs (f : SrcFile) (d : DstFS) :
    (copyOne f d).madeDirs = (ensureDirs f d).madeDirs := rfl

theorem mem_madeDirs_runPure (tree : List SrcFile) (d : DstFS) (q : Path)
    (h : q ∈ d.madeDirs) : q ∈ (runPure tree d).madeDirs := by
  induction tree generalizing d with
  | nil => exact h
  | cons g rest ih =>
    rw [runPure_cons]
    by_cases hg : usedFile g = true
    · simp only [hg, if_true]
      exact ih _ (mem_madeDirs_ensureDirs g d q h)
    · simp only [Bool.not_eq_true] at hg
      simp only [hg, Bool.false_eq_true, if_false]
      exact ih _ h

theorem dirs_mem_runPure (tree : List SrcFile) (d : DstFS) (f : SrcFile)
    (hf : f ∈ tree) (hu : usedFile f = true) (hne : f.dirs ≠ []) :
    f.dirs ∈ (runPure tree d).madeDirs := by
  induction tree generalizing d with
  | nil => cases hf
  | cons g rest ih =>
    rw [runPure_cons]
    rcases List.mem_cons.mp hf with rfl | hf2
    · simp only [hu, if_true]
      exact mem_madeDirs_runPure _ _ _ (dirs_mem_ensureDirs f d hne)
    · exact ih _ hf2

theorem lookupFile_runPure_notmem (tree : List SrcFile) (d : DstFS) (p : Path)
    (h : ∀ f ∈ tree, usedFile f = true → f.relKey ≠ p) :
    lookupFile (runPure tree d).files p = lookupFile d.files p := by
  induction tree generalizing d with
  | nil => rfl
  | cons g rest ih =>
    rw [runPure_cons,
      ih _ (fun f hf => h f (List.mem_cons_of_mem g hf))]
    by_cases hg : usedFile g = true
    · simp only [hg, if_true]
      exact lookupFile_copyOne_ne g d p
        (Ne.symm (h g (List.mem_cons_self g rest) hg))
    · simp only [Bool.not_eq_true] at hg
      simp only [hg, Bool.false_eq_true, if_false]

theorem lookupFile_runPure_self (tree : List SrcFile) (d : DstFS) (f : SrcFile)
    (hnd : (tree.map SrcFile.relKey).Nodup) (hf : f ∈ tree)
    (hu : usedFile f = true) :
    lookupFile (runPure tree d).files f.relKey = some f.stat := by
  induction tree generalizing d with
  | nil => cases hf
  | cons g rest ih =>
    rw [List.map_cons, List.nodup_cons] at hnd
    rw [runPure_cons]
    rcases List.mem_cons.mp hf with rfl | hf2
    · rw [lookupFile_runPure_notmem]
      · simp only [hu, if_true]
        exact lookupFile_copyOne_self f d
      · intro g2 hg2 _ heq
        exact hnd.1 (heq ▸ List.mem_map_of_mem SrcFile.relKey hg2)
    · exact ih _ hnd.2 hf2

theorem mem_fileKeys_runPure (tree : List SrcFile) (d : DstFS) (p : Path) :
    p ∈ fileKeys (runPure tree d).files ↔
      p ∈ fileKeys d.files ∨ ∃ f, f ∈ tree ∧ usedFile f = true ∧ f.relKey = p := by
  induction tree generalizing d with
  | nil => simp [runPure]
  | cons g rest ih =>
    rw [runPure_cons, ih]
    by_cases hg : usedFile g = true
    · simp only [hg, if_true]
      rw [mem_fileKeys_copyOne]
      constructor
      · rintro ((rfl | hd) | ⟨f, hf, hu2, rfl⟩)
        · exact Or.inr ⟨g, List.mem_cons_self g rest, hg, rfl⟩
        · exact Or.inl hd
        · exact Or.inr ⟨f, List.mem_cons_of_mem g hf, hu2, rfl⟩
      · rintro (hd | ⟨f, hf, hu2, rfl⟩)
        · exact Or.inl (Or.inr hd)
        · rcases List.mem_cons.mp hf with rfl | hf2
          · exact Or.inl (Or.inl rfl)
          · exact Or.inr ⟨f, hf2, hu2, rfl⟩
    · simp only [Bool.not_eq_true] at hg
      simp only [hg, Bool.false_eq_true, if_false]
      constructor
      · rintro (hd | ⟨f, hf, hu2, rfl⟩)
        · exact Or.inl hd
        · exact Or.inr ⟨f, List.mem_cons_of_mem g hf, hu2, rfl⟩
      · rintro (hd | ⟨f, hf, hu2, rfl⟩)
        · exact Or.inl hd
        · rcases List.mem_cons.mp hf with rfl | hf2
          · rw [hu2] at hg
            cases hg
          · exact Or.inr ⟨f, hf2, hu2, rfl⟩

theorem copyOne_fixed (f : SrcFile) (d : DstFS)
    (h1 : lookupFile d.files f.relKey = some f.stat)
    (h2 : f.dirs = [] ∨ f.dirs ∈ d.madeDirs) : copyOne f d = d := by
  have he : ensureDirs f d = d := by
    unfold ensureDirs
    rw [if_neg]
    push_neg
    intro hne
    rcases h2 with h2 | h2
    · exact absurd h2 hne
    · exact h2
  rw [copyOne, he, putFile_eq_of_lookup _ _ _ h1]

theorem runPure_fixed (tree : List SrcFile) (d : DstFS)
    (h : ∀ f ∈ tree, usedFile f = true → copyOne f d = d) :
    runPure tree d = d := by
  induction tree with
  | nil => rfl
  | cons g rest ih =>
    rw [runPure_cons]
    by_cases hg : usedFile g = true
    · simp only [hg, if_true]
      rw [h g (List.mem_cons_self g rest) hg]
      exact ih fun f hf => h f (List.mem_cons_of_mem g hf)
    · simp only [Bool.not_eq_true] at hg
      simp only [hg, Bool.false_eq_true, if_false]
      exact ih fun f hf => h f (List.mem_cons_of_mem g hf)

theorem dirsClosed_mkDirs (ds : List Path) (parents : Path)
    (h : dirsClosed ds) : dirsClosed (mkDirs ds parents) := by
  intro p hp q hq
  rcases (mem_mkDirs _ _ _).mp hp with hp | hp
  · exact (mem_mkDirs _ _ _).mpr (Or.inl (h p hp q hq))
  · exact (mem_mkDirs _ _ _).mpr (Or.inr (nonemptyPrefixes_trans _ _ _ hp hq))

theorem dirsClosed_ensureDirs (f : SrcFile) (d : DstFS)
    (h : dirsClosed d.madeDirs) : dirsClosed (ensureDirs f d).madeDirs := by
  unfold ensureDirs
  split
  · exact dirsClosed_mkDirs _ _ h
  · exact h

theorem dirsClosed_runPure (tree : List SrcFile) (d : DstFS)
    (h : dirsClosed d.madeDirs) : dirsClosed (runPure tree d).madeDirs := by
  induction tree generalizing d with
  | nil => exact h
  | cons g rest ih =>
    rw [runPure_cons]
    by_cases hg : usedFile g = true
    · simp only [hg, if_true]
      exact ih _ (dirsClosed_ensureDirs g d h)
    · simp only [Bool.not_eq_true] at hg
      simp only [hg, Bool.false_eq_true, if_false]
      exact ih _ h

theorem usedFile_eq_true_iff (f : SrcFile) :
    usedFile f = true ↔
      (endsWithCH f.name = true ∧ f.isLink = false ∧ f.mtime < f.atime) := by
  simp [usedFile, Bool.and_eq_true, Bool.not_eq_true', and_assoc]

theorem mem_prepare_matched (now : Int) (tree : List SrcFile) (f : SrcFile)
    (hf : f ∈ prepare_tree now tree) (hm : endsWithCH f.name = true)
    (hl : f.isLink = false) :
    f.mtime = now ∧ f.atime = now - HOURS48 := by
  rcases List.mem_map.mp hf with ⟨g, hg, rfl⟩
  by_cases h1 : endsWithCH g.name = true
  · cases h2 : g.isLink with
    | true =>
      rw [show prepareFile now g = g from by simp [prepareFile, h1, h2]] at hl
      simp [h2] at hl
    | false => simp [prepareFile, h1, h2]
  · simp only [Bool.not_eq_true] at h1
    rw [show prepareFile now g = g from by simp [prepareFile, h1]] at hm
    simp [h1] at hm

/-! ## The claims -/

/-- C1: for every file under the source tree, running the collect
operation (with every copy succeeding) into an empty destination copies
the file into the destination tree if and only if its name ends in `.c`
or `.h`, it is not a symbolic link, and its access time is strictly
greater than its modification time; files whose access time equals or is
below their modification time are skipped. -/
theorem collect_copies_iff_used (root : Path) (tree : List SrcFile)
    (f : SrcFile) (hnd : (tree.map SrcFile.relKey).Nodup) (hf : f ∈ tree) :
    f.relKey ∈ fileKeys ((collect_tree noFail root tree emptyDst).1).files ↔
      (endsWithCH f.name = true ∧ f.isLink = false ∧ f.mtime < f.atime) := by
  rw [collect_bridge noFail root tree emptyDst (fun _ _ _ => rfl)]
  rw [← usedFile_eq_true_iff]
  constructor
  · intro hmem
    rcases (mem_fileKeys_runPure tree emptyDst f.relKey).mp hmem with
      hd | ⟨g, hg, hu, heq⟩
    · simp [emptyDst, fileKeys] at hd
    · have hgf : g = f := List.inj_on_of_nodup_map hnd hg hf heq
      exact hgf ▸ hu
  · intro hu
    exact (mem_fileKeys_runPure tree emptyDst f.relKey).mpr
      (Or.inr ⟨f, hf, hu, rfl⟩)

theorem collect_copies_iff_used_witness :
    (cMain.relKey ∈
      fileKeys ((collect_tree noFail sampleRoot [cMain, cUnused] emptyDst).1).files ↔
      (endsWithCH cMain.name = true ∧ cMain.isLink = false ∧
        cMain.mtime < cMain.atime)) ∧
    (cUnused.relKey ∈
      fileKeys ((collect_tree noFail sampleRoot [cMain, cUnused] emptyDst).1).files ↔
      (endsWithCH cUnused.name = true ∧ cUnused.isLink = false ∧
        cUnused.mtime < cUnused.atime)) :=
  ⟨collect_copies_iff_used sampleRoot [cMain, cUnused] cMain (by decide)
      (by decide),
   collect_copies_iff_used sampleRoot [cMain, cUnused] cUnused (by decide)
      (by decide)⟩

/-- C2: after a prepare pass at instant `now`, every non-symlink file
whose name ends in `.c`/`.h` ends up with modification time `now` and
access time equal to its modification time minus exactly 48 hours, while
every symbolic link is left entirely unchanged (its timestamps included).
`prepare_tree` replaces each tree entry by `prepareFile now`, and the
first conjunct places that updated entry in the prepared tree. -/
theorem prepare_sets_times (now : Int) (tree : List SrcFile) (f : SrcFile)
    (hf : f ∈ tree) :
    prepareFile now f ∈ prepare_tree now tree ∧
    (endsWithCH f.name = true → f.isLink = false →
      (prepareFile now f).mtime = now ∧
      (prepareFile now f).atime = (prepareFile now f).mtime - 48 * 3600) ∧
    (f.isLink = true → prepareFile now f = f) := by
  refine ⟨List.mem_map_of_mem _ hf, ?_, ?_⟩
  · intro h1 h2
    simp [prepareFile, h1, h2, HOURS48]
  · intro h3
    by_cases h1 : endsWithCH f.name = true
    · simp [prepareFile, h1, h3]
    · simp only [Bool.not_eq_true] at h1
      simp [prepareFile, h1]

theorem prepare_sets_times_witness :
    prepareFile 1000 cMain ∈ prepare_tree 1000 [cMain, cLinked] ∧
    (endsWithCH cMain.name = true → cMain.isLink = false →
      (prepareFile 1000 cMain).mtime = 1000 ∧
      (prepareFile 1000 cMain).atime =
        (prepareFile 1000 cMain).mtime - 48 * 3600) ∧
    (cMain.isLink = true → prepareFile 1000 cMain = cMain) :=
  prepare_sets_times 1000 [cMain, cLinked] cMain (by decide)

/-- C3: every file copied by the collect operation is placed at the same
path relative to the destination root as it had relative to the source
root, and every intermediate directory of that relative path exists under
the destination root afterwards. -/
theorem collect_preserves_relative_path (root : Path) (tree : List SrcFile)
    (f : SrcFile) (hnd : (tree.map SrcFile.relKey).Nodup) (hf : f ∈ tree)
    (hm : endsWithCH f.name = true) (hl : f.isLink = false)
    (ht : f.mtime < f.atime) :
    lookupFile ((collect_tree noFail root tree emptyDst).1).files
        (f.dirs ++ [f.name]) = some f.stat ∧
    ∀ q ∈ nonemptyPrefixes f.dirs,
      q ∈ ((collect_tree noFail root tree emptyDst).1).madeDirs := by
  have hu : usedFile f = true := (usedFile_eq_true_iff f).mpr ⟨hm, hl, ht⟩
  rw [collect_bridge noFail root tree emptyDst (fun _ _ _ => rfl)]
  constructor
  · exact lookupFile_runPure_self tree emptyDst f hnd hf hu
  · intro q hq
    have hne : f.dirs ≠ [] := by
      intro hnil
      rw [hnil] at hq
      simp [nonemptyPrefixes] at hq
    have hmem := dirs_mem_runPure tree emptyDst f hf hu hne
    have hclosed : dirsClosed (runPure tree emptyDst).madeDirs :=
      dirsClosed_runPure tree emptyDst
        (fun p hp => absurd hp (List.not_mem_nil p))
    exact hclosed f.dirs hmem q hq

theorem collect_preserves_relative_path_witness :
    lookupFile ((collect_tree noFail sampleRoot [cMain] emptyDst).1).files
        (cMain.dirs ++ [cMain.name]) = some cMain.stat ∧
    ∀ q ∈ nonemptyPrefixes cMain.dirs,
      q ∈ ((collect_tree noFail sampleRoot [cMain] emptyDst).1).madeDirs :=
  collect_preserves_relative_path sampleRoot [cMain] cMain (by decide)
    (by decide) (by decide) (by decide) (by decide)

/-- C6: a selected file sitting directly at the tree root (its relative
path has no parent component) is copied by the Parent-Preserving Copier
straight into the destination root: no subdirectory is created
(`madeDirs` is untouched), and the copy succeeds for every destination
state `d` whatsoever — in particular the destination root is never
pre-validated to exist. -/
theorem parent_copy_at_root (root : Path) (nm : String) (data : FileData)
    (d : DstFS) :
    parent_copy noFail (root ++ [nm]) root data d =
      ({ d with files := putFile d.files [nm] data }, none) := by
  unfold parent_copy
  rw [relpath_append]
  dsimp only
  rfl

/-- C7: running the collect operation twice in succession against a
source tree and a destination that are unchanged between runs produces a
destination identical to that after the first run. -/
theorem collect_idempotent (root : Path) (tree : List SrcFile) (d0 : DstFS)
    (hnd : (tree.map SrcFile.relKey).Nodup) :
    collect_tree noFail root tree ((collect_tree noFail root tree d0).1) =
      collect_tree noFail root tree d0 := by
  rw [collect_bridge noFail root tree d0 (fun _ _ _ => rfl)]
  dsimp only
  rw [collect_bridge noFail root tree (runPure tree d0) (fun _ _ _ => rfl)]
  have hfix : runPure tree (runPure tree d0) = runPure tree d0 := by
    apply runPure_fixed
    intro f hf hu
    apply copyOne_fixed
    · exact lookupFile_runPure_self tree d0 f hnd hf hu
    · by_cases hne : f.dirs = []
      · exact Or.inl hne
      · exact Or.inr (dirs_mem_runPure tree d0 f hf hu hne)
  rw [hfix]

theorem collect_idempotent_witness :
    collect_tree noFail sampleRoot [cMain, cUnused]
        ((collect_tree noFail sampleRoot [cMain, cUnused] emptyDst).1) =
      collect_tree noFail sampleRoot [cMain, cUnused] emptyDst :=
  collect_idempotent sampleRoot [cMain, cUnused] emptyDst (by decide)

/-- C10: `prepare_tree` samples its timestamp pair once, before the walk
(the single `now` argument mirrors `m_time = time.time()` computed before
the loop), so any two matched `.c`/`.h` non-symlink files of the prepared
tree carry the identical modification time and the identical access
time. -/
theorem prepare_uniform_times (now : Int) (tree : List SrcFile)
    (f g : SrcFile) (hf : f ∈ prepare_tree now tree)
    (hg : g ∈ prepare_tree now tree) (hfm : endsWithCH f.name = true)
    (hfl : f.isLink = false) (hgm : endsWithCH g.name = true)
    (hgl : g.isLink = false) :
    f.mtime = g.mtime ∧ f.atime = g.atime := by
  obtain ⟨hf1, hf2⟩ := mem_prepare_matched now tree f hf hfm hfl
  obtain ⟨hg1, hg2⟩ := mem_prepare_matched now tree g hg hgm hgl
  exact ⟨hf1.trans hg1.symm, hf2.trans hg2.symm⟩

theorem prepare_uniform_times_witness :
    (prepareFile 1000 cMain).mtime = (prepareFile 1000 cRootFile).mtime ∧
    (prepareFile 1000 cMain).atime = (prepareFile 1000 cRootFile).atime :=
  prepare_uniform_times 1000 [cMain, cRootFile] (prepareFile 1000 cMain)
    (prepareFile 1000 cRootFile) (by decide) (by decide) (by decide)
    (by decide) (by decide) (by decide)

theorem main_collect (env : CopyEnv) (w : World) (s dp : Path)
    (hex : w.pathExists s = true) :
    main env w ⟨false, true, some s, some dp⟩ =
      (match collect_tree env s (w.treeAt s) (w.dstAt dp) with
       | (d1, none) => (w.setDst dp d1, none)
       | (d1, some e) =>
         (w.setDst dp d1, some ("Could not collect: " ++ e))) := by
  simp [main, hex]

/-- C4: when a copy fails during collection, the failure surfaces as
`Could not collect: Could not copy <path>: <cause>` — the copier wraps
the cause with the source path, the dispatcher wraps that with the phase
name. The first failure aborts all remaining work (the result does not
depend on the files after the failing one), and the files already copied
before the failure stay in the destination (no rollback). -/
theorem collect_failure_wrapped (env : CopyEnv) (w : World) (s dp : Path)
    (pre post : List SrcFile) (f : SrcFile) (cause : String)
    (hex : w.pathExists s = true)
    (htree : w.treeAt s = pre ++ f :: post)
    (hpre : ∀ g ∈ pre, usedFile g = true → env.copyErr (s ++ g.relKey) = none)
    (hused : usedFile f = true)
    (hfail : env.copyErr (s ++ f.relKey) = some cause) :
    (main env w ⟨false, true, some s, some dp⟩).2 =
      some ("Could not collect: " ++
        ("Could not copy " ++ pathStr (s ++ f.relKey) ++ ": " ++ cause)) ∧
    ∀ g ∈ pre, usedFile g = true →
      g.relKey ∈ fileKeys
        (((main env w ⟨false, true, some s, some dp⟩).1.dstAt dp).files) := by
  have hct : collect_tree env s (w.treeAt s) (w.dstAt dp) =
      (ensureDirs f (runPure pre (w.dstAt dp)),
       some ("Could not copy " ++ pathStr (s ++ f.relKey) ++ ": " ++ cause)) := by
    rw [htree, collect_tree, List.foldl_append]
    have h1 : List.foldl (collectStep env s) (w.dstAt dp, none) pre =
        (runPure pre (w.dstAt dp), none) :=
      collect_bridge env s pre (w.dstAt dp) hpre
    rw [h1, List.foldl_cons]
    have h2 : collectStep env s (runPure pre (w.dstAt dp), none) f =
        (ensureDirs f (runPure pre (w.dstAt dp)),
         some ("Could not copy " ++ pathStr (s ++ f.relKey) ++ ": " ++ cause)) := by
      obtain ⟨hm, hl, ht⟩ := (usedFile_eq_true_iff f).mp hused
      simp [collectStep, hm, hl, ht,
        parent_copy_fail env s f (runPure pre (w.dstAt dp)) cause hfail]
    rw [h2]
    exact collect_absorb env s post _ _
  rw [main_collect env w s dp hex, hct]
  dsimp only
  constructor
  · rfl
  · intro g hg hgu
    have hat : (World.setDst w dp
        (ensureDirs f (runPure pre (w.dstAt dp)))).dstAt dp =
        ensureDirs f (runPure pre (w.dstAt dp)) := by
      simp [World.setDst]
    rw [hat, ensureDirs_files]
    exact (mem_fileKeys_runPure pre (w.dstAt dp) g.relKey).mpr
      (Or.inr ⟨g, hg, hgu, rfl⟩)

theorem collect_failure_wrapped_witness :
    (main failEnv sampleWorld ⟨false, true, some sampleRoot,
        some sampleDstPath⟩).2 =
      some ("Could not collect: " ++
        ("Could not copy " ++ pathStr (sampleRoot ++ cMain.relKey) ++ ": " ++
          "Permission denied")) ∧
    ∀ g ∈ ([] : List SrcFile), usedFile g = true →
      g.relKey ∈ fileKeys (((main failEnv sampleWorld ⟨false, true,
        some sampleRoot, some sampleDstPath⟩).1.dstAt sampleDstPath).files) :=
  collect_failure_wrapped failEnv sampleWorld sampleRoot sampleDstPath
    [] [cUnused] cMain "Permission denied" rfl rfl
    (fun g hg => absurd hg (List.not_mem_nil g)) (by decide) (by decide)

/-- C5 (amended): invoking the tool with both `--prepare` and `--collect`
set, or with neither set, prints exactly
`Error: You must use either --collect or --prepare` — with no trailing
period — and performs no filesystem changes (the world is returned
untouched). -/
theorem usage_error_both_or_neither (env : CopyEnv) (w : World) (args : Args)
    (h : args.prepareMode = args.collectMode) :
    main env w args = (w, some "You must use either --collect or --prepare") ∧
    (topLevel env w args).2.1 =
      ["Error: You must use either --collect or --prepare"] := by
  have hc : ((args.prepareMode && args.collectMode)
      || (!args.prepareMode && !args.collectMode)) = true := by
    cases hp : args.prepareMode <;> rw [hp] at h <;> simp [← h]
  have hm : main env w args =
      (w, some "You must use either --collect or --prepare") := by
    simp [main, hc]
  refine ⟨hm, ?_⟩
  unfold topLevel
  rw [hm]
  rfl

theorem usage_error_both_or_neither_witness :
    main noFail sampleWorld argsBothFlags =
      (sampleWorld, some "You must use either --collect or --prepare") ∧
    (topLevel noFail sampleWorld argsBothFlags).2.1 =
      ["Error: You must use either --collect or --prepare"] :=
  usage_error_both_or_neither noFail sampleWorld argsBothFlags rfl

/-- C5 counterexample: at the concrete invocation with both flags set the
script prints the usage message with no trailing period, so it does not
print the exact text `Error: You must use either --collect or
--prepare.` that the claim specifies (the filesystem is untouched,
as claimed). -/
theorem usage_error_exact_text_counterexample :
    (topLevel noFail sampleWorld argsBothFlags).2.1 =
      ["Error: You must use either --collect or --prepare"] ∧
    (main noFail sampleWorld argsBothFlags).1 = sampleWorld ∧
    "Error: You must use either --collect or --prepare" ≠
      "Error: You must use either --collect or --prepare." :=
  ⟨rfl, rfl, by decide⟩

/-- C8: invoking collect mode with a `--src` path that does not exist
fails with `Directory <src> does not exist`, printed by the top-level
handler as `Error: Directory <src> does not exist`, and the world is
returned unchanged — the check precedes any walk or copy. -/
theorem missing_src_error (env : CopyEnv) (w : World) (s dp : Path)
    (h : w.pathExists s = false) :
    main env w ⟨false, true, some s, some dp⟩ =
      (w, some ("Directory " ++ pathStr s ++ " does not exist")) ∧
    (topLevel env w ⟨false, true, some s, some dp⟩).2.1 =
      ["Error: " ++ ("Directory " ++ pathStr s ++ " does not exist")] := by
  have hm : main env w ⟨false, true, some s, some dp⟩ =
      (w, some ("Directory " ++ pathStr s ++ " does not exist")) := by
    simp [main, h]
  refine ⟨hm, ?_⟩
  unfold topLevel
  rw [hm]

theorem missing_src_error_witness :
    main noFail deadWorld
        ⟨false, true, some ["missing_dir"], some sampleDstPath⟩ =
      (deadWorld,
       some ("Directory " ++ pathStr ["missing_dir"] ++ " does not exist")) ∧
    (topLevel noFail deadWorld
        ⟨false, true, some ["missing_dir"], some sampleDstPath⟩).2.1 =
      ["Error: " ++ ("Directory " ++ pathStr ["missing_dir"] ++
        " does not exist")] :=
  missing_src_error noFail deadWorld ["missing_dir"] sampleDstPath rfl

/-- C9 (amended): every raised failure is printed to standard output
prefixed with `Error: `, and on success the process is silent; but the
`__main__` handler swallows the exception, so the process ends in the
success state (exit status 0) in every case, not a failed one. -/
theorem topLevel_reports_errors (env : CopyEnv) (w : World) (args : Args) :
    (topLevel env w args).2.2 = true ∧
    ((main env w args).2 = none → (topLevel env w args).2.1 = []) ∧
    (∀ m, (main env w args).2 = some m →
      (topLevel env w args).2.1 = ["Error: " ++ m]) ∧
    (topLevel env w args).1 = (main env w args).1 := by
  unfold topLevel
  rcases hm : main env w args with ⟨w1, e⟩
  cases e with
  | none => simp
  | some msg => simp

theorem topLevel_reports_errors_witness :
    (topLevel noFail sampleWorld argsCollect).2.2 = true ∧
    (topLevel noFail sampleWorld argsCollect).2.1 = [] :=
  ⟨(topLevel_reports_errors noFail sampleWorld argsCollect).1,
   (topLevel_reports_errors noFail sampleWorld argsCollect).2.1 rfl⟩

/-- C9 counterexample: at the concrete invocation with both flags set the
handler prints the error message, yet the process still ends in the
success state — refuting the claim that it ends in a failed
(non-success) state. -/
theorem topLevel_exit_success_counterexample :
    (topLevel noFail sampleWorld argsBothFlags).2.1 =
      ["Error: You must use either --collect or --prepare"] ∧
    (topLevel noFail sampleWorld argsBothFlags).2.2 = true ∧
    ¬((topLevel noFail sampleWorld argsBothFlags).2.2 = false) :=
  ⟨rfl, rfl, by decide⟩

end ReduceTree
